import Mathlib

/-!
Shallow embedding of `python-tooling/src/datafusion_udf_wasm_tooling/analyze_udf_overhead_bench.py`.

The script parses a JSON-Lines benchmark profile into observations
(mode, batchsize, batches, cost), fits a constrained linear regression per
mode, and tabulates pairwise deltas between the fitted cost models.

Modelling conventions:
* Python strings are Lean `String`s; the two regular expressions
  (`bench_(?P<mode>[a-z]+)` and
  `batchsize_(?P<batchsize>[0-9]+)_batches_(?P<batches>[0-9]+)`), used via
  `re.match` (anchored at the start, greedy), are implemented directly; since
  `[a-z]` and `[0-9]` cannot consume the literal characters that follow them,
  maximal munch coincides with the regex semantics and no backtracking is
  needed.
* A JSON input line is modelled by the fields the script reads:
  `function_name`, `id`, and `profiles`, where each profile is reduced to the
  association list
  `summaries.total.summary.Callgrind.<name>.metrics.Left.Int` indexed by the
  valgrind metric name.  Missing keys and failed `assert`s become
  `Except.error`.
* Python `int` is `Int`; float arithmetic of the analysis is modelled over `ℚ`.
* `sklearn.linear_model.LinearRegression(positive=True, fit_intercept=False)`
  composed with `StandardScaler(with_mean=False)` is modelled as an abstract
  solver `fit : FitFn` that returns the coefficients already mapped back
  through the scaler (`reg.coef_ / scaler.scale_`).  The scaler divides each
  column by a positive constant, which is a positive diagonal change of
  variables: it maps the feasible cone `β ≥ 0` bijectively onto itself and
  leaves every residual `X·β − y` unchanged, so the solver contract
  (coefficient nonnegativity, least-squares optimality over the nonnegative
  cone) transfers verbatim to the unscaled formulation used here.  Theorems
  take the relevant part of that contract as a hypothesis on `fit`.
  `reg.score(X, y)` is the coefficient of determination computed from the
  fitted predictions, embedded as `r2score` (including scikit-learn's
  NaN result, modelled as `none`, for fewer than two samples, and its
  conventions for a zero total sum of squares).
* `polars` DataFrames are lists of rows; `unique(maintain_order=True)` keeps
  first occurrences, `sorted(df["mode"].unique())` is a sort of the
  deduplicated mode list, `.sort("cost_row")` is a stable sort by that column.
-/

/-- Valgrind metric that the comparison is based on (`class Metric(Enum)`).
The Python enumeration has exactly the two members `cycles` and
`instructions`. -/
inductive Metric where
  | cycles
  | instructions
deriving DecidableEq, Repr

/-- `Metric.valgrind_name`: valgrind-specific name for the metric.  The
Python `match` has a catch-all branch raising `ValueError`; the result type
`Except String String` keeps that error channel, and the two enum cases
return normally. -/
def Metric.valgrind_name : Metric → Except String String
  | Metric.cycles => Except.ok "EstimatedCycles"
  | Metric.instructions => Except.ok "Ir"

/-- One profile of an input line, reduced to the mapping
`name ↦ summaries.total.summary.Callgrind[name].metrics.Left.Int` that the
script reads from it. -/
structure Profile where
  callgrind : List (String × Int)
deriving DecidableEq, Repr

/-- The fields of one JSON line that `parse_data` reads. -/
structure ProfileLine where
  function_name : String
  id : String
  profiles : List Profile
deriving DecidableEq, Repr

/-- One parsed observation: one row of the DataFrame built by `parse_data`. -/
structure Obs where
  mode : String
  batchsize : Int
  batches : Int
  cost : Int
deriving DecidableEq, Repr

/-- `[a-z]` of the Python regexes: ASCII lowercase letters. -/
def isLowerAZ (c : Char) : Bool :=
  'a' ≤ c && c ≤ 'z'

/-- `[0-9]` of the Python regexes: ASCII digits. -/
def isDigit09 (c : Char) : Bool :=
  '0' ≤ c && c ≤ '9'

/-- Python `int` applied to a nonempty string of ASCII digits. -/
def digitsToInt (cs : List Char) : Int :=
  (cs.foldl (fun n c => 10 * n + (c.toNat - '0'.toNat)) 0 : Nat)

/-- `re.compile("bench_(?P<mode>[a-z]+)").match(s)`: the string must start
with `bench_` followed by at least one lowercase letter; the captured mode is
the maximal run of lowercase letters after the literal prefix. -/
def fnMatch (s : String) : Option String :=
  let cs := s.data
  if cs.take 6 = "bench_".data then
    let mode := (cs.drop 6).takeWhile isLowerAZ
    if mode.isEmpty then none else some (String.mk mode)
  else none

/-- `re.compile("batchsize_(?P<batchsize>[0-9]+)_batches_(?P<batches>[0-9]+)").match(s)`:
the string must start with `batchsize_<digits>_batches_<digits>`; trailing
characters are ignored (`re.match` is not `fullmatch`). -/
def idMatch (s : String) : Option (Int × Int) :=
  let cs := s.data
  if cs.take 10 = "batchsize_".data then
    let r1 := cs.drop 10
    let ds1 := r1.takeWhile isDigit09
    if ds1.isEmpty then none
    else
      let r2 := r1.drop ds1.length
      if r2.take 9 = "_batches_".data then
        let ds2 := (r2.drop 9).takeWhile isDigit09
        if ds2.isEmpty then none
        else some (digitsToInt ds1, digitsToInt ds2)
      else none
  else none

/-- The body of `parse_data`'s loop for a single line: match
`function_name`, match `id`, destructure the singleton `profiles` list and
look up the selected valgrind metric.  A failed `assert`, a non-singleton
profile list or a missing metric key raises, i.e. returns `Except.error`. -/
def parse_line (vn : String) (l : ProfileLine) : Except String Obs :=
  match fnMatch l.function_name with
  | none => Except.error "assert fn_parsed"
  | some mode =>
    match idMatch l.id with
    | none => Except.error "assert id_parsed"
    | some bp =>
      match l.profiles with
      | [p] =>
        match p.callgrind.lookup vn with
        | none => Except.error "KeyError"
        | some c =>
          Except.ok { mode := mode, batchsize := bp.1, batches := bp.2, cost := c }
      | _ => Except.error "too many values to unpack"

/-- The `for line in fp` loop of `parse_data`: one observation per input
line, in order; the first failing line aborts the whole parse. -/
def parse_lines (vn : String) : List ProfileLine → Except String (List Obs)
  | [] => Except.ok []
  | l :: rest =>
    match parse_line vn l with
    | Except.error e => Except.error e
    | Except.ok o =>
      match parse_lines vn rest with
      | Except.error e => Except.error e
      | Except.ok os => Except.ok (o :: os)

/-- `parse_data(file, metric)`: resolve the valgrind metric name once, then
parse every line of the file into one observation. -/
def parse_data (metric : Metric) (ls : List ProfileLine) :
    Except String (List Obs) :=
  match metric.valgrind_name with
  | Except.error e => Except.error e
  | Except.ok vn => parse_lines vn ls

/-- The type of the abstract constrained-least-squares solver: from the
design matrix rows `(totalrows, batches, 1)` and the target vector it
returns the three coefficients `reg.coef_ / scaler.scale_`
(cost per row, cost per call, constant term). -/
def FitFn : Type :=
  List (ℚ × ℚ × ℚ) → List ℚ → ℚ × ℚ × ℚ

/-- The design-matrix row of one observation, after
`with_columns(totalrows = batchsize * batches)`, `select("totalrows",
"batches")` and `np.hstack`-ing the constant column of ones:
`(batchsize * batches, batches, 1)`. -/
def designRow (o : Obs) : ℚ × ℚ × ℚ :=
  ((o.batchsize * o.batches : Int), ((o.batches : Int) : ℚ), (1 : ℚ))

/-- `X`: the design matrix of a list of observations. -/
def designOf (l : List Obs) : List (ℚ × ℚ × ℚ) :=
  l.map designRow

/-- `y`: the target vector (the cost column) of a list of observations. -/
def costsOf (l : List Obs) : List ℚ :=
  l.map (fun o => ((o.cost : Int) : ℚ))

/-- The prediction of the linear model with coefficients `β` on one design
row: `β₁·totalrows + β₂·batches + β₃·1`. -/
def predictQ (β x : ℚ × ℚ × ℚ) : ℚ :=
  β.1 * x.1 + β.2.1 * x.2.1 + β.2.2 * x.2.2

/-- Residual sum of squares of the model `β` on design matrix `X` and
target `y`. -/
def ssres (X : List (ℚ × ℚ × ℚ)) (y : List ℚ) (β : ℚ × ℚ × ℚ) : ℚ :=
  ((X.zip y).map (fun p => (predictQ β p.1 - p.2) ^ 2)).sum

/-- The mean of the target vector. -/
def meanQ (y : List ℚ) : ℚ :=
  y.sum / y.length

/-- Total sum of squares of the target vector. -/
def sstot (y : List ℚ) : ℚ :=
  (y.map (fun v => (v - meanQ y) ^ 2)).sum

/-- `reg.score(X, y)`: scikit-learn's coefficient of determination of the
fitted model, with the library's conventions in order of precedence:
fewer than two samples yield `float("nan")` (under an
`UndefinedMetricWarning`), modelled as `none`; otherwise, when
`sstot = 0`, the score is `1` for a perfect fit and `0` otherwise; else
it is `1 - ssres/sstot`.  `none` is the only non-finite float value
reachable here, so `Option ℚ` models the score column exactly. -/
def r2score (X : List (ℚ × ℚ × ℚ)) (y : List ℚ) (β : ℚ × ℚ × ℚ) : Option ℚ :=
  if y.length < 2 then none
  else if sstot y = 0 then (if ssres X y β = 0 then some 1 else some 0)
  else some (1 - ssres X y β / sstot y)

/-- Python `int()` applied to a (rational-modelled) float: truncation
toward zero. -/
def pyTrunc (q : ℚ) : Int :=
  if 0 ≤ q then ⌊q⌋ else ⌈q⌉

/-- One row of the cost-model DataFrame returned by `regression`.  The
score column is a float that is NaN exactly when the mode had fewer than
two observations; `none` models NaN. -/
structure CostRow where
  mode : String
  cost_row : Int
  cost_call : Int
  cost_cached : Int
  score : Option ℚ
deriving DecidableEq, Repr

/-- `sorted(df["mode"].unique())`: the distinct modes of the observations,
sorted lexicographically. -/
def sortedModes (df : List Obs) : List String :=
  List.insertionSort (fun a b => a ≤ b) (df.map (fun o => o.mode)).dedup

/-- The cost-model row `regression` builds for one mode `m`: filter the
observations to that mode, run the solver on that mode's design matrix and
costs, truncate the rescaled coefficients to `int`, and record the fit
score. -/
def fitRow (fit : FitFn) (df : List Obs) (m : String) : CostRow :=
  let sub := df.filter (fun o => o.mode == m)
  let X := designOf sub
  let y := costsOf sub
  let β := fit X y
  { mode := m
    cost_row := pyTrunc β.1
    cost_call := pyTrunc β.2.1
    cost_cached := pyTrunc β.2.2
    score := r2score X y β }

/-- `regression(df)`: one cost-model row per distinct mode (iterated in
sorted order), then `.sort("cost_row")`. -/
def regression (fit : FitFn) (df : List Obs) : List CostRow :=
  List.insertionSort (fun a b => a.cost_row ≤ b.cost_row)
    ((sortedModes df).map (fitRow fit df))

/-- `df["mode"].unique(maintain_order=True)`: distinct values in order of
first occurrence. -/
def uniqueKeepFirst : List String → List String
  | [] => []
  | a :: l => a :: (uniqueKeepFirst (l.filter (fun b => b != a)))
termination_by l => l.length
decreasing_by
  simpa using Nat.lt_succ_of_le (List.length_filter_le _ _)

/-- `df.filter(pl.col("mode") == m).row(0, named=True)`: the first row of
the cost-model frame carrying mode `m` (`none` when the filter is empty,
where polars would raise). -/
def firstRowOf (df : List CostRow) (m : String) : Option CostRow :=
  df.find? (fun r => r.mode == m)

/-- One row of the frame built by `calc_delta`: the compared mode, the
baseline mode, and `op` applied to the three `cost_`-prefixed columns of
the (baseline, mode) row pair. -/
structure DeltaRow (α : Type) where
  mode : String
  baseline : String
  dcost_row : α
  dcost_call : α
  dcost_cached : α
deriving DecidableEq, Repr

/-- The inner loop of `calc_delta` for a fixed compared row `row2`: iterate
the baseline candidates `m1`, `continue` when
`row1["cost_row"] >= row2["cost_row"]`, otherwise emit one delta row. -/
def deltaRowsFor (df : List CostRow) (op : Int → Int → α) (modes : List String)
    (m2 : String) (row2 : CostRow) : List (DeltaRow α) :=
  modes.filterMap (fun m1 =>
    match firstRowOf df m1 with
    | none => none
    | some row1 =>
      if row2.cost_row ≤ row1.cost_row then none
      else some
        { mode := m2
          baseline := m1
          dcost_row := op row1.cost_row row2.cost_row
          dcost_call := op row1.cost_call row2.cost_call
          dcost_cached := op row1.cost_cached row2.cost_cached })

/-- `calc_delta(df, op)`: for every ordered pair of distinct first-occurrence
modes `(m2, m1)` whose first rows satisfy
`row1["cost_row"] < row2["cost_row"]`, emit one row with `op(row1[col],
row2[col])` for each column starting with `cost_` (here `cost_row`,
`cost_call`, `cost_cached`). -/
def calc_delta (df : List CostRow) (op : Int → Int → α) : List (DeltaRow α) :=
  (uniqueKeepFirst (df.map (fun r => r.mode))).flatMap (fun m2 =>
    match firstRowOf df m2 with
    | none => []
    | some row2 =>
      deltaRowsFor df op (uniqueKeepFirst (df.map (fun r => r.mode))) m2 row2)

/-- The divisor `max(1, float(a))` used by both relative-delta lambdas in
`main`. -/
def relDivisor (a : ℚ) : ℚ :=
  max 1 a

/-- The lambda of the `delta rel1` table:
`lambda a, b: (float(b) - float(a)) / max(1, float(a))`. -/
def deltaRel1 (a b : ℚ) : ℚ :=
  (b - a) / relDivisor a

/-- The lambda of the `delta rel2` table:
`lambda a, b: float(b) / max(1, float(a))`. -/
def deltaRel2 (a b : ℚ) : ℚ :=
  b / relDivisor a

/-- The degenerate solver returning all-zero coefficients; used to
instantiate the abstract solver contract on concrete inputs. -/
def zeroFit : FitFn :=
  fun _ _ => ((0 : ℚ), (0 : ℚ), (0 : ℚ))

instance : IsTotal CostRow (fun a b => a.cost_row ≤ b.cost_row) :=
  ⟨fun a b => le_total a.cost_row b.cost_row⟩

instance : IsTrans CostRow (fun a b => a.cost_row ≤ b.cost_row) :=
  ⟨fun _ _ _ h1 h2 => le_trans h1 h2⟩

lemma pyTrunc_nonneg {q : ℚ} (h : 0 ≤ q) : 0 ≤ pyTrunc q := by
  unfold pyTrunc
  rw [if_pos h]
  exact Int.floor_nonneg.mpr h

lemma ssres_nonneg (X : List (ℚ × ℚ × ℚ)) (y : List ℚ) (β : ℚ × ℚ × ℚ) :
    0 ≤ ssres X y β := by
  apply List.sum_nonneg
  intro x hx
  obtain ⟨p, _, rfl⟩ := List.mem_map.mp hx
  exact sq_nonneg _

lemma sstot_nonneg (y : List ℚ) : 0 ≤ sstot y := by
  apply List.sum_nonneg
  intro x hx
  obtain ⟨p, _, rfl⟩ := List.mem_map.mp hx
  exact sq_nonneg _

lemma exists_mode_of_mem_regression {fit : FitFn} {df : List Obs} {r : CostRow}
    (h : r ∈ regression fit df) : ∃ m ∈ sortedModes df, r = fitRow fit df m := by
  unfold regression at h
  rw [List.mem_insertionSort] at h
  obtain ⟨m, hm, rfl⟩ := List.mem_map.mp h
  exact ⟨m, hm, rfl⟩

/-- C10: `Metric.valgrind_name` is total on the `Metric` enumeration and
never raises: it returns `EstimatedCycles` for `Metric.cycles` and `Ir` for
`Metric.instructions`, and the `ValueError` branch is unreachable for every
`Metric` value. -/
theorem valgrind_name_total :
    (∀ m : Metric, ∃ s, m.valgrind_name = Except.ok s) ∧
    Metric.cycles.valgrind_name = Except.ok "EstimatedCycles" ∧
    Metric.instructions.valgrind_name = Except.ok "Ir" := by
  refine ⟨fun m => ?_, rfl, rfl⟩
  cases m
  · exact ⟨"EstimatedCycles", rfl⟩
  · exact ⟨"Ir", rfl⟩

/-- C9: the relative-delta operations never divide by zero: the divisor is
`max(1, a)`, which is nonzero (indeed positive) for every non-negative `a`,
including `a = 0`, so both `(b - a) / max(1, a)` and `b / max(1, a)` are
well defined and satisfy the expected division equations. -/
theorem relDivisor_ne_zero (a b : ℚ) (h : 0 ≤ a) :
    relDivisor a ≠ 0 ∧ 0 < relDivisor a ∧
    deltaRel1 a b * relDivisor a = b - a ∧
    deltaRel2 a b * relDivisor a = b := by
  have hpos : 0 < relDivisor a := lt_of_lt_of_le one_pos (le_max_left 1 a)
  have hne : relDivisor a ≠ 0 := ne_of_gt hpos
  refine ⟨hne, hpos, ?_, ?_⟩
  · unfold deltaRel1
    exact div_mul_cancel₀ _ hne
  · unfold deltaRel2
    exact div_mul_cancel₀ _ hne

/-- Witness for C9 at the concrete input `a = 0`, `b = 5`. -/
theorem relDivisor_ne_zero_witness :
    relDivisor 0 ≠ 0 ∧ 0 < relDivisor 0 ∧
    deltaRel1 0 5 * relDivisor 0 = 5 - 0 ∧
    deltaRel2 0 5 * relDivisor 0 = 5 :=
  relDivisor_ne_zero 0 5 (le_refl 0)

/-- C1: when the solver honours the `positive=True` constraint of
`LinearRegression` (all coefficients, including the constant term, are
non-negative), every cost-model row produced by `regression` has
`cost_row`, `cost_call` and `cost_cached` equal to non-negative integers
(the coefficients are truncated to `int`). -/
theorem regression_coeffs_nonneg (fit : FitFn) (df : List Obs)
    (hfit : ∀ X y, 0 ≤ (fit X y).1 ∧ 0 ≤ (fit X y).2.1 ∧ 0 ≤ (fit X y).2.2) :
    ∀ r ∈ regression fit df,
      0 ≤ r.cost_row ∧ 0 ≤ r.cost_call ∧ 0 ≤ r.cost_cached := by
  intro r hr
  obtain ⟨m, _, rfl⟩ := exists_mode_of_mem_regression hr
  obtain ⟨h1, h2, h3⟩ := hfit
    (designOf (df.filter (fun o => o.mode == m)))
    (costsOf (df.filter (fun o => o.mode == m)))
  exact ⟨pyTrunc_nonneg h1, pyTrunc_nonneg h2, pyTrunc_nonneg h3⟩

/-- Witness for C1: the zero solver satisfies the non-negativity contract,
at a concrete two-observation input. -/
theorem regression_coeffs_nonneg_witness :
    0 ≤ ({ mode := "a", cost_row := 0, cost_call := 0, cost_cached := 0,
           score := none } : CostRow).cost_row ∧
    0 ≤ ({ mode := "a", cost_row := 0, cost_call := 0, cost_cached := 0,
           score := none } : CostRow).cost_call ∧
    0 ≤ ({ mode := "a", cost_row := 0, cost_call := 0, cost_cached := 0,
           score := none } : CostRow).cost_cached :=
  regression_coeffs_nonneg zeroFit
    [{ mode := "a", batchsize := 1, batches := 1, cost := 0 }]
    (fun _ _ => ⟨le_refl 0, le_refl 0, le_refl 0⟩)
    { mode := "a", cost_row := 0, cost_call := 0, cost_cached := 0, score := none }
    (by norm_num [regression, sortedModes, fitRow, designOf, costsOf, r2score, ssres,
      sstot, meanQ, pyTrunc, predictQ, designRow, zeroFit, List.insertionSort,
      List.orderedInsert, List.dedup])

/-- C8: the cost-model DataFrame returned by `regression` is sorted in
non-decreasing order of `cost_row` (the final `.sort("cost_row")`), so the
mode with the lowest per-row cost appears first. -/
theorem regression_sorted_by_cost_row (fit : FitFn) (df : List Obs) :
    List.Sorted (fun a b => a.cost_row ≤ b.cost_row) (regression fit df) ∧
    ∀ h ∈ (regression fit df).head?, ∀ r ∈ regression fit df,
      h.cost_row ≤ r.cost_row := by
  have hs : List.Sorted (fun a b => a.cost_row ≤ b.cost_row) (regression fit df) :=
    List.sorted_insertionSort _ _
  refine ⟨hs, ?_⟩
  intro h hh r hr
  cases hL : regression fit df with
  | nil => rw [hL] at hh; simp at hh
  | cons a t =>
    rw [hL] at hh hr hs
    simp only [List.head?_cons, Option.mem_def, Option.some_inj] at hh
    subst hh
    rcases List.mem_cons.mp hr with h1 | h2
    · exact le_of_eq (congrArg CostRow.cost_row h1.symm)
    · exact (List.sorted_cons.mp hs).1 r h2

/-- Witness for C8 at a concrete one-observation input. -/
theorem regression_sorted_by_cost_row_witness :
    ({ mode := "a", cost_row := 0, cost_call := 0, cost_cached := 0,
       score := none } : CostRow).cost_row ≤
    ({ mode := "a", cost_row := 0, cost_call := 0, cost_cached := 0,
       score := none } : CostRow).cost_row :=
  (regression_sorted_by_cost_row zeroFit
      [{ mode := "a", batchsize := 1, batches := 1, cost := 0 }]).2
    { mode := "a", cost_row := 0, cost_call := 0, cost_cached := 0, score := none }
    (by norm_num [regression, sortedModes, fitRow, designOf, costsOf, r2score, ssres,
      sstot, meanQ, pyTrunc, predictQ, designRow, zeroFit, List.insertionSort,
      List.orderedInsert, List.dedup])
    { mode := "a", cost_row := 0, cost_call := 0, cost_cached := 0, score := none }
    (by norm_num [regression, sortedModes, fitRow, designOf, costsOf, r2score, ssres,
      sstot, meanQ, pyTrunc, predictQ, designRow, zeroFit, List.insertionSort,
      List.orderedInsert, List.dedup])

lemma sortedModes_nodup (df : List Obs) : (sortedModes df).Nodup := by
  unfold sortedModes
  exact ((List.perm_insertionSort _ _).nodup_iff).mpr (List.nodup_dedup _)

lemma mem_sortedModes {df : List Obs} {m : String} :
    m ∈ sortedModes df ↔ m ∈ df.map (fun o => o.mode) := by
  unfold sortedModes
  rw [List.mem_insertionSort, List.mem_dedup]

lemma map_mode_regression (fit : FitFn) (df : List Obs) :
    List.Perm ((regression fit df).map (fun r => r.mode)) (sortedModes df) := by
  unfold regression
  refine ((List.perm_insertionSort _ _).map _).trans ?_
  rw [List.map_map]
  have : ((fun r : CostRow => r.mode) ∘ fitRow fit df) = id := by
    funext m
    rfl
  rw [this, List.map_id]

/-- C4: `regression` produces exactly one cost-model row per distinct mode
present in the input observations (distinct row modes, ranging over exactly
the input modes); each row is fitted from that mode's observations only,
and the fitted linear model decomposes the cost as
`y = cost_row * totalrows + cost_call * batches + cost_cached` with
`totalrows = batchsize * batches`, the reported coefficients being the
`int`-truncated solver output and the score the fit quality on the same
data. -/
theorem regression_one_row_per_mode (fit : FitFn) (df : List Obs) :
    ((regression fit df).map (fun r => r.mode)).Nodup ∧
    (∀ m, m ∈ (regression fit df).map (fun r => r.mode) ↔
        m ∈ df.map (fun o => o.mode)) ∧
    (∀ r ∈ regression fit df,
      ∃ X y β,
        X = designOf (df.filter (fun o => o.mode == r.mode)) ∧
        y = costsOf (df.filter (fun o => o.mode == r.mode)) ∧
        β = fit X y ∧
        r.cost_row = pyTrunc β.1 ∧
        r.cost_call = pyTrunc β.2.1 ∧
        r.cost_cached = pyTrunc β.2.2 ∧
        r.score = r2score X y β ∧
        ∀ o ∈ df.filter (fun o => o.mode == r.mode),
          predictQ β (designRow o) =
            β.1 * ((o.batchsize : ℚ) * (o.batches : ℚ)) +
            β.2.1 * (o.batches : ℚ) + β.2.2) := by
  refine ⟨((map_mode_regression fit df).nodup_iff).mpr (sortedModes_nodup df),
    fun m => ((map_mode_regression fit df).mem_iff).trans mem_sortedModes, ?_⟩
  intro r hr
  obtain ⟨m, _, rfl⟩ := exists_mode_of_mem_regression hr
  refine ⟨_, _, _, rfl, rfl, rfl, rfl, rfl, rfl, rfl, ?_⟩
  intro o _
  simp only [predictQ, designRow]
  push_cast
  ring

/-- Witness for C4: the mode-membership equivalence at a concrete input. -/
theorem regression_one_row_per_mode_witness :
    "a" ∈ (regression zeroFit
      [{ mode := "a", batchsize := 1, batches := 1, cost := 0 }]).map
        (fun r => r.mode) :=
  ((regression_one_row_per_mode zeroFit
      [{ mode := "a", batchsize := 1, batches := 1, cost := 0 }]).2.1 "a").mpr
    (by decide)

lemma mem_uniqueKeepFirst {l : List String} {m : String} :
    m ∈ uniqueKeepFirst l ↔ m ∈ l := by
  induction l using uniqueKeepFirst.induct with
  | case1 => simp [uniqueKeepFirst]
  | case2 a l ih =>
    rw [uniqueKeepFirst]
    by_cases hma : m = a
    · subst hma; simp
    · simp [List.mem_cons, ih, List.mem_filter, hma]

lemma firstRowOf_spec {df : List CostRow} {m : String} {r : CostRow}
    (h : firstRowOf df m = some r) : r ∈ df ∧ r.mode = m :=
  ⟨List.mem_of_find?_eq_some h, by simpa using List.find?_some h⟩

lemma firstRowOf_exists {df : List CostRow} {m : String}
    (h : m ∈ df.map (fun r => r.mode)) : ∃ r, firstRowOf df m = some r := by
  obtain ⟨r, hr, rfl⟩ := List.mem_map.mp h
  have : (List.find? (fun r2 => r2.mode == r.mode) df).isSome = true :=
    List.find?_isSome.mpr ⟨r, hr, by simp⟩
  exact Option.isSome_iff_exists.mp this

lemma firstRowOf_self {df : List CostRow}
    (hn : (df.map (fun r => r.mode)).Nodup) {r : CostRow} (hr : r ∈ df) :
    firstRowOf df r.mode = some r := by
  induction df with
  | nil => cases hr
  | cons a t ih =>
    rw [List.map_cons, List.nodup_cons] at hn
    rcases List.mem_cons.mp hr with rfl | hrt
    · exact List.find?_cons_of_pos _ (by simp)
    · have hne : ¬ ((a.mode == r.mode) = true) := by
        simp only [beq_iff_eq]
        intro heq
        exact hn.1 (heq ▸ List.mem_map.mpr ⟨r, hrt, rfl⟩)
      unfold firstRowOf at ih ⊢
      rw [@List.find?_cons_of_neg _ (fun r2 => r2.mode == r.mode) a t hne]
      exact ih hn.2 hrt

/-- C2: under distinct row modes, `calc_delta` emits a delta row for an
ordered pair of rows (baseline, mode) if and only if the baseline's
`cost_row` is strictly lower; every emitted row carries `op(row1[col],
row2[col])` for each of the `cost_`-prefixed columns `cost_row`,
`cost_call`, `cost_cached`. -/
theorem calc_delta_iff {α : Type} (df : List CostRow) (op : Int → Int → α)
    (hn : (df.map (fun r => r.mode)).Nodup) (d : DeltaRow α) :
    d ∈ calc_delta df op ↔
      ∃ r1 ∈ df, ∃ r2 ∈ df,
        d.baseline = r1.mode ∧ d.mode = r2.mode ∧
        r1.cost_row < r2.cost_row ∧
        d.dcost_row = op r1.cost_row r2.cost_row ∧
        d.dcost_call = op r1.cost_call r2.cost_call ∧
        d.dcost_cached = op r1.cost_cached r2.cost_cached := by
  constructor
  · intro hd
    unfold calc_delta at hd
    obtain ⟨m2, _, hd⟩ := List.mem_flatMap.mp hd
    cases hrow2 : firstRowOf df m2 with
    | none => rw [hrow2] at hd; cases hd
    | some row2 =>
      rw [hrow2] at hd
      dsimp only at hd
      unfold deltaRowsFor at hd
      obtain ⟨m1, _, hd⟩ := List.mem_filterMap.mp hd
      cases hrow1 : firstRowOf df m1 with
      | none => rw [hrow1] at hd; cases hd
      | some row1 =>
        rw [hrow1] at hd
        dsimp only at hd
        by_cases hle : row2.cost_row ≤ row1.cost_row
        · rw [if_pos hle] at hd; cases hd
        · rw [if_neg hle] at hd
          obtain ⟨hr1df, hr1m⟩ := firstRowOf_spec hrow1
          obtain ⟨hr2df, hr2m⟩ := firstRowOf_spec hrow2
          obtain rfl : _ = d := Option.some_inj.mp hd
          exact ⟨row1, hr1df, row2, hr2df, hr1m.symm, hr2m.symm,
            not_le.mp hle, rfl, rfl, rfl⟩
  · intro hex
    obtain ⟨dm, db, da, dc, dd⟩ := d
    obtain ⟨r1, hr1, r2, hr2, hb, hm, hlt, h1, h2, h3⟩ := hex
    dsimp only at hb hm h1 h2 h3
    subst hb hm h1 h2 h3
    unfold calc_delta
    apply List.mem_flatMap.mpr
    refine ⟨r2.mode, mem_uniqueKeepFirst.mpr (List.mem_map.mpr ⟨r2, hr2, rfl⟩), ?_⟩
    rw [firstRowOf_self hn hr2]
    dsimp only
    unfold deltaRowsFor
    apply List.mem_filterMap.mpr
    refine ⟨r1.mode, mem_uniqueKeepFirst.mpr (List.mem_map.mpr ⟨r1, hr1, rfl⟩), ?_⟩
    rw [firstRowOf_self hn hr1]
    dsimp only
    rw [if_neg (not_le.mpr hlt)]

/-- Witness for C2: at a concrete two-mode cost-model frame with distinct
modes, the delta row for the cheap baseline is emitted. -/
theorem calc_delta_iff_witness :
    ({ mode := "b", baseline := "a", dcost_row := 4, dcost_call := 4,
       dcost_cached := 4 } : DeltaRow Int) ∈
    calc_delta
      [{ mode := "a", cost_row := 1, cost_call := 2, cost_cached := 3, score := some 1 },
       { mode := "b", cost_row := 5, cost_call := 6, cost_cached := 7, score := some 1 }]
      (fun a b => b - a) :=
  (calc_delta_iff
      [{ mode := "a", cost_row := 1, cost_call := 2, cost_cached := 3, score := some 1 },
       { mode := "b", cost_row := 5, cost_call := 6, cost_cached := 7, score := some 1 }]
      (fun a b => b - a) (by decide)
      { mode := "b", baseline := "a", dcost_row := 4, dcost_call := 4,
        dcost_cached := 4 }).mpr
    ⟨{ mode := "a", cost_row := 1, cost_call := 2, cost_cached := 3, score := some 1 },
      by decide,
      { mode := "b", cost_row := 5, cost_call := 6, cost_cached := 7, score := some 1 },
      by decide, rfl, rfl, by decide, rfl, rfl, rfl⟩

lemma ssres_const (l : List Obs) (c : ℚ) :
    ssres (designOf l) (costsOf l) (0, 0, c)
      = ((costsOf l).map (fun v => (v - c) ^ 2)).sum := by
  unfold ssres designOf costsOf
  rw [List.zip_map', List.map_map, List.map_map]
  congr 1
  apply List.map_congr_left
  intro o _
  simp only [Function.comp_apply, predictQ, designRow]
  ring

lemma ssres_mean (l : List Obs) :
    ssres (designOf l) (costsOf l) (0, 0, meanQ (costsOf l))
      = sstot (costsOf l) := by
  rw [ssres_const]
  rfl

lemma meanQ_nonneg {y : List ℚ} (h : ∀ v ∈ y, 0 ≤ v) : 0 ≤ meanQ y :=
  div_nonneg (List.sum_nonneg h) (Nat.cast_nonneg _)

lemma score_in_unit_of_optimal (sub : List Obs) (β : ℚ × ℚ × ℚ)
    (hopt : ∀ γ : ℚ × ℚ × ℚ, 0 ≤ γ.1 → 0 ≤ γ.2.1 → 0 ≤ γ.2.2 →
        ssres (designOf sub) (costsOf sub) β ≤ ssres (designOf sub) (costsOf sub) γ)
    (hcost : ∀ o ∈ sub, 0 ≤ o.cost) (hlen : 2 ≤ sub.length) :
    ∃ q, r2score (designOf sub) (costsOf sub) β = some q ∧ 0 ≤ q ∧ q ≤ 1 := by
  unfold r2score
  have hlen2 : ¬ ((costsOf sub).length < 2) := by
    unfold costsOf
    rw [List.length_map]
    omega
  rw [if_neg hlen2]
  by_cases h0 : sstot (costsOf sub) = 0
  · rw [if_pos h0]
    split
    · exact ⟨1, rfl, by norm_num⟩
    · exact ⟨0, rfl, by norm_num⟩
  · rw [if_neg h0]
    have hst : 0 < sstot (costsOf sub) :=
      lt_of_le_of_ne (sstot_nonneg _) (Ne.symm h0)
    have hmean : 0 ≤ meanQ (costsOf sub) := by
      apply meanQ_nonneg
      intro v hv
      obtain ⟨o, ho, rfl⟩ := List.mem_map.mp hv
      exact_mod_cast hcost o ho
    have hle : ssres (designOf sub) (costsOf sub) β ≤ sstot (costsOf sub) := by
      have h := hopt (0, 0, meanQ (costsOf sub)) le_rfl le_rfl hmean
      rwa [ssres_mean sub] at h
    refine ⟨1 - ssres (designOf sub) (costsOf sub) β / sstot (costsOf sub),
      rfl, ?_, ?_⟩
    · have h1 : ssres (designOf sub) (costsOf sub) β / sstot (costsOf sub) ≤ 1 :=
        (div_le_one hst).mpr hle
      linarith
    · have h2 : 0 ≤ ssres (designOf sub) (costsOf sub) β / sstot (costsOf sub) :=
        div_nonneg (ssres_nonneg _ _ _) (le_of_lt hst)
      linarith

/-- C3 (amended): when the solver is a least-squares optimum over the
non-negative cone (the contract of `LinearRegression(positive=True)`) and
all observed costs are non-negative (as the spec's data model states), the
fit quality score recorded in a cost-model row produced by `regression`
for a mode with at least two observations is a finite value in the
interval `[0, 1]`; a mode with fewer than two observations instead records
scikit-learn's NaN (see the counterexample). -/
theorem regression_score_in_unit_interval (fit : FitFn) (df : List Obs)
    (hopt : ∀ m ∈ sortedModes df,
      ∀ β : ℚ × ℚ × ℚ, 0 ≤ β.1 → 0 ≤ β.2.1 → 0 ≤ β.2.2 →
        ssres (designOf (df.filter (fun o => o.mode == m)))
            (costsOf (df.filter (fun o => o.mode == m)))
            (fit (designOf (df.filter (fun o => o.mode == m)))
              (costsOf (df.filter (fun o => o.mode == m)))) ≤
          ssres (designOf (df.filter (fun o => o.mode == m)))
            (costsOf (df.filter (fun o => o.mode == m))) β)
    (hcost : ∀ o ∈ df, 0 ≤ o.cost) :
    ∀ r ∈ regression fit df,
      2 ≤ (df.filter (fun o => o.mode == r.mode)).length →
      ∃ q, r.score = some q ∧ 0 ≤ q ∧ q ≤ 1 := by
  intro r hr hlen
  obtain ⟨m, hm, rfl⟩ := exists_mode_of_mem_regression hr
  refine score_in_unit_of_optimal (df.filter (fun o => o.mode == m)) _
    (fun γ h1 h2 h3 => hopt m hm γ h1 h2 h3) ?_ hlen
  intro o ho
  exact hcost o (List.mem_filter.mp ho).1


lemma ssres_zeroFit_le (X : List (ℚ × ℚ × ℚ)) (y : List ℚ)
    (hy : ∀ v ∈ y, v = 0) (β : ℚ × ℚ × ℚ) :
    ssres X y (zeroFit X y) ≤ ssres X y β := by
  have hz : ssres X y (zeroFit X y) = 0 := by
    apply List.sum_eq_zero
    intro t ht
    obtain ⟨p, hp, rfl⟩ := List.mem_map.mp ht
    have hp2 : p.2 = 0 := hy p.2 (List.of_mem_zip hp).2
    simp [predictQ, zeroFit, hp2]
  rw [hz]
  exact ssres_nonneg X y β

/-- C3 is false as stated: a mode with a single observation is a reachable
input (a one-line profile), and for it `reg.score` follows scikit-learn's
fewer-than-two-samples convention and returns NaN (modelled `none`), which
lies in no interval; at this input the costs are non-negative and the zero
solver is a least-squares optimum, so the claim's premises do not exclude
it. -/
theorem regression_score_nan_counterexample :
    regression zeroFit [{ mode := "a", batchsize := 1, batches := 1, cost := 0 }]
      = [{ mode := "a", cost_row := 0, cost_call := 0, cost_cached := 0, score := none }] ∧
    (∀ q : ℚ,
      ¬ (({ mode := "a", cost_row := 0, cost_call := 0, cost_cached := 0, score := none } : CostRow).score = some q ∧
         0 ≤ q ∧ q ≤ 1)) := by
  constructor
  · norm_num [regression, sortedModes, fitRow, designOf, costsOf, r2score, ssres,
      sstot, meanQ, pyTrunc, predictQ, designRow, zeroFit, List.insertionSort,
      List.orderedInsert, List.dedup]
  · intro q hq
    exact Option.noConfusion hq.1

/-- Witness for C3 (amended): the zero solver is optimal for a concrete
mode with two zero-cost observations, and the recorded score is the finite
value `1`, which lies in `[0, 1]`. -/
theorem regression_score_in_unit_interval_witness :
    ∃ q, ({ mode := "a", cost_row := 0, cost_call := 0, cost_cached := 0,
            score := some 1 } : CostRow).score = some q ∧ 0 ≤ q ∧ q ≤ 1 :=
  regression_score_in_unit_interval zeroFit
    [{ mode := "a", batchsize := 1, batches := 1, cost := 0 },
     { mode := "a", batchsize := 2, batches := 1, cost := 0 }]
    (by
      intro m hm β h1 h2 h3
      apply ssres_zeroFit_le
      intro v hv
      simp only [costsOf, List.mem_map] at hv
      obtain ⟨o, ho, rfl⟩ := hv
      have ho1 := (List.mem_filter.mp ho).1
      simp only [List.mem_cons, List.not_mem_nil, or_false] at ho1
      rcases ho1 with rfl | rfl
      · rfl
      · rfl)
    (by decide)
    { mode := "a", cost_row := 0, cost_call := 0, cost_cached := 0, score := some 1 }
    (by norm_num [regression, sortedModes, fitRow, designOf, costsOf, r2score, ssres,
      sstot, meanQ, pyTrunc, predictQ, designRow, zeroFit, List.insertionSort,
      List.orderedInsert, List.dedup])
    (by decide)

lemma digitsToInt_nonneg (cs : List Char) : 0 ≤ digitsToInt cs :=
  Int.natCast_nonneg _

lemma idMatch_nonneg {s : String} {bs bt : Int}
    (h : idMatch s = some (bs, bt)) : 0 ≤ bs ∧ 0 ≤ bt := by
  simp only [idMatch] at h
  split at h
  · split at h
    · cases h
    · split at h
      · split at h
        · cases h
        · obtain ⟨h1, h2⟩ := Prod.mk.injEq .. ▸ Option.some_inj.mp h
          exact ⟨h1 ▸ digitsToInt_nonneg _, h2 ▸ digitsToInt_nonneg _⟩
      · cases h
  · cases h

lemma parse_line_ok {vn : String} {l : ProfileLine} {o : Obs}
    (h : parse_line vn l = Except.ok o) :
    ∃ m bs bt p c,
      fnMatch l.function_name = some m ∧
      idMatch l.id = some (bs, bt) ∧
      l.profiles = [p] ∧
      p.callgrind.lookup vn = some c ∧
      o = { mode := m, batchsize := bs, batches := bt, cost := c } := by
  unfold parse_line at h
  cases hf : fnMatch l.function_name with
  | none => rw [hf] at h; cases h
  | some m =>
    rw [hf] at h
    dsimp only at h
    cases hi : idMatch l.id with
    | none => rw [hi] at h; cases h
    | some bp =>
      rw [hi] at h
      dsimp only at h
      obtain ⟨bs, bt⟩ := bp
      cases hp : l.profiles with
      | nil => rw [hp] at h; cases h
      | cons p rest =>
        cases rest with
        | nil =>
          rw [hp] at h
          dsimp only at h
          cases hc : List.lookup vn p.callgrind with
          | none => rw [hc] at h; cases h
          | some c =>
            rw [hc] at h
            dsimp only at h
            injection h with h
            exact ⟨m, bs, bt, p, c, rfl, rfl, rfl, hc, h.symm⟩
        | cons q rest2 =>
          rw [hp] at h
          dsimp only at h
          cases h

lemma parse_line_error (vn : String) (l : ProfileLine)
    (h : fnMatch l.function_name = none ∨ idMatch l.id = none) :
    ∃ e, parse_line vn l = Except.error e := by
  unfold parse_line
  cases hf : fnMatch l.function_name with
  | none => exact ⟨_, rfl⟩
  | some m =>
    rcases h with h | h
    · rw [h] at hf; cases hf
    · rw [h]
      exact ⟨_, rfl⟩

lemma parse_lines_ok_forall₂ {vn : String} {ls : List ProfileLine}
    {obs : List Obs} (h : parse_lines vn ls = Except.ok obs) :
    List.Forall₂ (fun l o => parse_line vn l = Except.ok o) ls obs := by
  induction ls generalizing obs with
  | nil =>
    unfold parse_lines at h
    injection h with h
    subst h
    exact List.Forall₂.nil
  | cons l rest ih =>
    unfold parse_lines at h
    cases hl : parse_line vn l with
    | error e => rw [hl] at h; cases h
    | ok o =>
      rw [hl] at h
      dsimp only at h
      cases hr : parse_lines vn rest with
      | error e => rw [hr] at h; cases h
      | ok os =>
        rw [hr] at h
        dsimp only at h
        injection h with h
        subst h
        exact List.Forall₂.cons hl (ih hr)

lemma parse_lines_error_of_line {vn : String} {ls : List ProfileLine}
    (l : ProfileLine) (hl : l ∈ ls)
    (hfail : fnMatch l.function_name = none ∨ idMatch l.id = none) :
    ∃ e, parse_lines vn ls = Except.error e := by
  induction ls with
  | nil => cases hl
  | cons a rest ih =>
    rcases List.mem_cons.mp hl with rfl | hmem
    · obtain ⟨e, he⟩ := parse_line_error vn l hfail
      refine ⟨e, ?_⟩
      unfold parse_lines
      rw [he]
    · cases ha : parse_line vn a with
      | error e =>
        refine ⟨e, ?_⟩
        unfold parse_lines
        rw [ha]
      | ok o =>
        obtain ⟨e, he⟩ := ih hmem
        refine ⟨e, ?_⟩
        unfold parse_lines
        rw [ha, he]

lemma forall₂_mem_right {α β : Type} {R : α → β → Prop} {ls : List α}
    {obs : List β} (h : List.Forall₂ R ls obs) {o : β} (ho : o ∈ obs) :
    ∃ l ∈ ls, R l o := by
  induction h with
  | nil => cases ho
  | cons hR hF ih =>
    rcases List.mem_cons.mp ho with rfl | ho2
    · exact ⟨_, List.mem_cons_self _ _, hR⟩
    · obtain ⟨l, hl, hRl⟩ := ih ho2
      exact ⟨l, List.mem_cons_of_mem _ hl, hRl⟩

/-- C5 is false as stated: `parse_data` accepts a line whose `id` carries
batch size `0` and batch count `0` (the `[0-9]+` groups match `0`) and whose
metric value is negative, producing an observation with non-positive batch
fields and negative cost. -/
theorem parse_data_positive_counterexample :
    parse_data Metric.cycles
      [{ function_name := "bench_x", id := "batchsize_0_batches_0", profiles := [{ callgrind := [("EstimatedCycles", -1)] }] }]
      = Except.ok [{ mode := "x", batchsize := 0, batches := 0, cost := -1 }] ∧
    ¬ (∀ o ∈ [({ mode := "x", batchsize := 0, batches := 0, cost := -1 } : Obs)],
        0 < o.batchsize ∧ 0 < o.batches ∧ 0 ≤ o.cost) := by
  constructor
  · rfl
  · decide

/-- C5 (amended): every observation produced by `parse_data` has a
non-negative integer batch size and a non-negative integer batch count (the
digit groups of the `id` regex can be `0`, so positivity is not
guaranteed); the cost is the raw integer of the selected metric field and
is not sign-constrained by the parser. -/
theorem parse_data_batch_fields_nonneg (metric : Metric)
    (ls : List ProfileLine) (obs : List Obs)
    (h : parse_data metric ls = Except.ok obs) :
    ∀ o ∈ obs, 0 ≤ o.batchsize ∧ 0 ≤ o.batches := by
  intro o ho
  unfold parse_data at h
  cases hv : metric.valgrind_name with
  | error e => rw [hv] at h; cases h
  | ok vn =>
    rw [hv] at h
    dsimp only at h
    obtain ⟨l, _, hline⟩ := forall₂_mem_right (parse_lines_ok_forall₂ h) ho
    obtain ⟨m, bs, bt, p, c, _, hid, _, _, rfl⟩ := parse_line_ok hline
    exact idMatch_nonneg hid

/-- Witness for C5 (amended) at the counterexample input. -/
theorem parse_data_batch_fields_nonneg_witness :
    0 ≤ ({ mode := "x", batchsize := 0, batches := 0, cost := -1 } : Obs).batchsize ∧
    0 ≤ ({ mode := "x", batchsize := 0, batches := 0, cost := -1 } : Obs).batches :=
  parse_data_batch_fields_nonneg Metric.cycles
    [{ function_name := "bench_x", id := "batchsize_0_batches_0", profiles := [{ callgrind := [("EstimatedCycles", -1)] }] }]
    [{ mode := "x", batchsize := 0, batches := 0, cost := -1 }]
    (by rfl)
    { mode := "x", batchsize := 0, batches := 0, cost := -1 }
    (by decide)

/-- C6: `parse_data` produces exactly one observation per input line, with
the mode captured by the `bench_` regex from `function_name`, the batch
size and count captured by the `batchsize_..._batches_...` regex from
`id`, and the cost looked up under the selected valgrind metric in the
line's single profile; a line whose `function_name` or `id` does not match
its regex makes the whole parse fail. -/
theorem parse_data_line_shape (metric : Metric) (ls : List ProfileLine) :
    (∀ obs, parse_data metric ls = Except.ok obs →
      obs.length = ls.length ∧
      ∀ i (h1 : i < ls.length) (h2 : i < obs.length),
        ∃ vn m bs bt p c,
          metric.valgrind_name = Except.ok vn ∧
          fnMatch (ls.get ⟨i, h1⟩).function_name = some m ∧
          idMatch (ls.get ⟨i, h1⟩).id = some (bs, bt) ∧
          (ls.get ⟨i, h1⟩).profiles = [p] ∧
          List.lookup vn p.callgrind = some c ∧
          obs.get ⟨i, h2⟩ = { mode := m, batchsize := bs, batches := bt, cost := c }) ∧
    (∀ l ∈ ls, (fnMatch l.function_name = none ∨ idMatch l.id = none) →
      ∃ e, parse_data metric ls = Except.error e) := by
  constructor
  · intro obs h
    unfold parse_data at h
    cases hv : metric.valgrind_name with
    | error e => rw [hv] at h; cases h
    | ok vn =>
      rw [hv] at h
      dsimp only at h
      have hF := parse_lines_ok_forall₂ h
      obtain ⟨hlen, hget⟩ := List.forall₂_iff_get.mp hF
      refine ⟨hlen.symm, ?_⟩
      intro i hi1 hi2
      obtain ⟨m, bs, bt, p, c, hfn, hid, hp, hc, heq⟩ :=
        parse_line_ok (hget i hi1 hi2)
      exact ⟨vn, m, bs, bt, p, c, rfl, hfn, hid, hp, hc, heq⟩
  · intro l hl hfail
    unfold parse_data
    cases hv : metric.valgrind_name with
    | error e => exact ⟨e, rfl⟩
    | ok vn =>
      obtain ⟨e, he⟩ := parse_lines_error_of_line l hl hfail
      refine ⟨e, ?_⟩
      dsimp only
      exact he

/-- Witness for C6: a well-formed line parses into exactly one observation,
and a line with a non-matching `function_name` makes the parse fail. -/
theorem parse_data_line_shape_witness :
    ([({ mode := "x", batchsize := 2, batches := 3, cost := 7 } : Obs)]).length
      = ([({ function_name := "bench_x", id := "batchsize_2_batches_3", profiles := [{ callgrind := [("EstimatedCycles", 7)] }] } : ProfileLine)]).length ∧
    ∃ e, parse_data Metric.cycles
      [{ function_name := "nope", id := "batchsize_2_batches_3", profiles := [] }]
      = Except.error e :=
  ⟨((parse_data_line_shape Metric.cycles
      [{ function_name := "bench_x", id := "batchsize_2_batches_3", profiles := [{ callgrind := [("EstimatedCycles", 7)] }] }]).1
      [{ mode := "x", batchsize := 2, batches := 3, cost := 7 }] (by rfl)).1,
   (parse_data_line_shape Metric.cycles
      [{ function_name := "nope", id := "batchsize_2_batches_3", profiles := [] }]).2
      { function_name := "nope", id := "batchsize_2_batches_3", profiles := [] }
      (by decide) (Or.inl (by decide))⟩
